import Mathlib

/-!
Verification of the MySQL-to-SQL-Server value-list transformer
(`clean_data.py`).  The transformer's text passes are embedded as
executable functions on `List Char`; Python regex behaviour (lazy
quantifiers, greedy runs with deterministic backtracking, left-to-right
non-overlapping `str.replace`) is reproduced by direct scanning
functions.  Scanning loops that consume more than one character per
step carry a fuel argument (initialised with the text length) so that
every definition reduces in the kernel; fuel-irrelevance lemmas recover
the natural unfolding equations.
-/

set_option autoImplicit false

abbrev Text := List Char

def quoteChar : Char := Char.ofNat 39

def backslashChar : Char := Char.ofNat 92

def newlineChar : Char := Char.ofNat 10

def backtickChar : Char := Char.ofNat 96

/-- Python `\s` / `str.strip` whitespace, ASCII range. -/
def isSpaceP (c : Char) : Bool :=
  c = (' ') || c = newlineChar || c = Char.ofNat 9 || c = Char.ofNat 13 ||
  c = Char.ofNat 11 || c = Char.ofNat 12

/-- Strip characters satisfying `p` from both ends (Python `str.strip`). -/
def stripChars (p : Char → Bool) (l : Text) : Text :=
  ((l.dropWhile p).reverse.dropWhile p).reverse

/-- Python `str.strip()` (whitespace). -/
def pstrip (l : Text) : Text := stripChars isSpaceP l

/-- Python `str.rstrip(chars)` for a single character. -/
def rstripChar (c : Char) (l : Text) : Text :=
  (l.reverse.dropWhile (· = c)).reverse

/-- Number of (possibly overlapping) occurrences of `n` in `h`;
at most one position can match per start index, so for the needles used
here it agrees with substring counting. -/
def countOccur (n : Text) : Text → Nat
  | [] => 0
  | c :: t => (if n.isPrefixOf (c :: t) then 1 else 0) + countOccur n t

/-- `containsSeq n h` holds when `n` occurs as a contiguous substring of `h`. -/
def containsSeq (n : Text) : Text → Bool
  | [] => n.isEmpty
  | c :: t => n.isPrefixOf (c :: t) || containsSeq n t

/-! ### Python `str.replace` (left-to-right, non-overlapping) -/

def replAllAux (old new : Text) : Nat → Text → Text
  | _, [] => []
  | 0, l => l
  | fuel + 1, c :: rest =>
    if old.isPrefixOf (c :: rest) && !old.isEmpty then
      new ++ replAllAux old new fuel (rest.drop (old.length - 1))
    else
      c :: replAllAux old new fuel rest

/-- Embedding of Python `text.replace(old, new)` for nonempty `old`
(the script only ever replaces nonempty literals). -/
def py_replace (old new l : Text) : Text := replAllAux old new l.length l

/-! ### Step 3 (source): `fix_apostrophes` -/

/-- The contraction table of `fix_apostrophes`, in the dictionary's
insertion order (Python dictionaries iterate in insertion order). -/
def apostrophe_fixes : List (Text × Text) :=
  [ (("don't").data, ("don''t").data), (("won't").data, ("won''t").data),
    (("can't").data, ("can''t").data), (("isn't").data, ("isn''t").data),
    (("aren't").data, ("aren''t").data), (("wasn't").data, ("wasn''t").data),
    (("weren't").data, ("weren''t").data), (("doesn't").data, ("doesn''t").data),
    (("haven't").data, ("haven''t").data), (("hasn't").data, ("hasn''t").data),
    (("hadn't").data, ("hadn''t").data), (("wouldn't").data, ("wouldn''t").data),
    (("shouldn't").data, ("shouldn''t").data), (("couldn't").data, ("couldn''t").data),
    (("it's").data, ("it''s").data), (("that's").data, ("that''s").data),
    (("what's").data, ("what''s").data), (("here's").data, ("here''s").data),
    (("there's").data, ("there''s").data), (("where's").data, ("where''s").data),
    (("let's").data, ("let''s").data), (("who's").data, ("who''s").data),
    (("you'll").data, ("you''ll").data), (("we'll").data, ("we''ll").data),
    (("they'll").data, ("they''ll").data), (("I'll").data, ("I''ll").data),
    (("he'll").data, ("he''ll").data), (("she'll").data, ("she''ll").data),
    (("you're").data, ("you''re").data), (("we're").data, ("we''re").data),
    (("they're").data, ("they''re").data), (("I'm").data, ("I''m").data),
    (("you've").data, ("you''ve").data), (("we've").data, ("we''ve").data),
    (("they've").data, ("they''ve").data), (("I've").data, ("I''ve").data) ]

/-- Embedding of `fix_apostrophes`: each table entry applied in order as a
literal `str.replace` over the whole text. -/
def fix_apostrophes (t : Text) : Text :=
  apostrophe_fixes.foldl (fun acc pr => py_replace pr.1 pr.2 acc) t

/-! ### Step 4 (source): `fix_newlines_and_formatting` -/

def collapseWsAux : Nat → Text → Text
  | _, [] => []
  | 0, l => l
  | fuel + 1, c :: rest =>
    if isSpaceP c then (' ') :: collapseWsAux fuel (rest.dropWhile isSpaceP)
    else c :: collapseWsAux fuel rest

/-- Embedding of `re.sub(r'\s+', ' ', text)`: every maximal whitespace run
becomes a single space. -/
def collapseWs (l : Text) : Text := collapseWsAux l.length l

/-- Embedding of `fix_newlines_and_formatting`: literal backslash-n to a
real newline, newlines to spaces, whitespace runs collapsed, then the
mis-encoded symbol fixups. -/
def fix_newlines_and_formatting (t : Text) : Text :=
  let t1 := py_replace [backslashChar, ('n')] [newlineChar] t
  let t2 := py_replace [newlineChar] [(' ')] t1
  let t3 := collapseWs t2
  let t4 := py_replace (("¬©").data) (("(c)").data) t3
  let t5 := py_replace (("¬Æ").data) (("(R)").data) t4
  py_replace (("‚Ñ¢").data) (("(TM)").data) t5

/-! ### Step 5 (source): `fix_business_terms` -/

def fixTcodeAux : Nat → Text → Text
  | _, [] => []
  | 0, l => l
  | fuel + 1, c :: rest =>
    if c = quoteChar then
      match rest with
      | [] => [c]
      | d :: rest2 =>
        if d = ('T') then
          let ds := rest2.takeWhile Char.isDigit
          match rest2.dropWhile Char.isDigit with
          | [] => c :: fixTcodeAux fuel rest
          | e :: r3 =>
            if ds.isEmpty = false && e = quoteChar then
              quoteChar :: quoteChar :: ('T') :: ds ++
                quoteChar :: quoteChar :: fixTcodeAux fuel r3
            else c :: fixTcodeAux fuel rest
        else c :: fixTcodeAux fuel rest
    else c :: fixTcodeAux fuel rest

/-- Embedding of `re.sub(r"'T(\d+)'", r"''T\1''", text)`. -/
def fixTcode (l : Text) : Text := fixTcodeAux l.length l

/-- Embedding of `fix_business_terms`. -/
def fix_business_terms (t : Text) : Text :=
  let t1 := py_replace (("e&").data) (("e&").data) t
  let t2 := py_replace (("UAE's").data) (("UAE''s").data) t1
  let t3 := fixTcode t2
  let t4 := py_replace (("kids").data ++ [backslashChar, quoteChar])
              (("kids''").data) t3
  py_replace [backslashChar, quoteChar] [quoteChar, quoteChar] t4

/-! ### Step 2 (source): `fix_quotes_and_special_chars`

The pattern `'((?:[^'\\]|\\.|'')*?)'` is matched lazily: at each point the
closing quote is tried first, so the body can absorb a quote only through
the `\\.` branch (`.` does not match a newline; no flags are passed), and
the `''` branch is unreachable.  The scan below reproduces exactly this. -/

/-- Lazy body scan of the string-literal regex, started just after an
opening quote.  Returns the captured group and the text after the closing
quote, or `none` when no match completes. -/
def scanBody : Text → Option (Text × Text)
  | [] => none
  | c :: rest =>
    if c = quoteChar then some ([], rest)
    else if c = backslashChar then
      match rest with
      | [] => none
      | d :: rest2 =>
        if d = newlineChar then none
        else
          match scanBody rest2 with
          | some (g, r) => some (c :: d :: g, r)
          | none => none
    else
      match scanBody rest with
      | some (g, r) => some (c :: g, r)
      | none => none

/-- The replacement callback: double every quote of the captured group. -/
def doubleQuotes (l : Text) : Text :=
  l.flatMap (fun c => if c = quoteChar then [quoteChar, quoteChar] else [c])

def fixQuotesAux : Nat → Text → Text
  | _, [] => []
  | 0, l => l
  | fuel + 1, c :: rest =>
    if c = quoteChar then
      match scanBody rest with
      | some (g, r) => quoteChar :: (doubleQuotes g ++ quoteChar :: fixQuotesAux fuel r)
      | none => c :: fixQuotesAux fuel rest
    else c :: fixQuotesAux fuel rest

/-- Embedding of `fix_quotes_and_special_chars`. -/
def fix_quotes_and_special_chars (t : Text) : Text := fixQuotesAux t.length t

/-! ### Step 1 (source): `detect_table_and_columns` -/

/-- Case-insensitive literal prefix test (`re.IGNORECASE`). -/
def ciPrefix : Text → Text → Bool
  | [], _ => true
  | _ :: _, [] => false
  | p :: ps, c :: cs => (p.toLower = c.toLower) && ciPrefix ps cs

/-- Python `\w` (ASCII range: the inputs at hand are ASCII identifiers). -/
def isWordChar (c : Char) : Bool := c.isAlphanum || c = ('_')

/-- Attempt of the pattern ``INSERT INTO `?(\w+)`?\s*\(([^)]+)\)`` at the
head of `l`; returns the two captured groups.  The quantifiers are
deterministic here: `\w+` and `[^)]+` are maximal runs, the optional
backticks and `\s*` cannot backtrack into a successful match. -/
def matchInsertAt (l : Text) : Option (Text × Text) :=
  if ciPrefix (("INSERT INTO ").data) l then
    let r0 := l.drop 12
    let r1 := if r0.head? = some backtickChar then r0.tail else r0
    let nm := r1.takeWhile isWordChar
    if nm.isEmpty then none
    else
      let r2 := r1.dropWhile isWordChar
      let r3 := if r2.head? = some backtickChar then r2.tail else r2
      match r3.dropWhile isSpaceP with
      | [] => none
      | c :: r5 =>
        if c = ('(') then
          let cols := r5.takeWhile (· ≠ (')'))
          if cols.isEmpty then none
          else
            match r5.dropWhile (· ≠ (')')) with
            | [] => none
            | _ :: _ => some (nm, cols)
        else none
  else none

/-- `re.search`: leftmost position where the INSERT pattern matches. -/
def findInsert : Text → Option (Text × Text)
  | [] => none
  | c :: rest =>
    match matchInsertAt (c :: rest) with
    | some x => some x
    | none => findInsert rest

/-- Python `str.capitalize()`: first character upper-cased, the rest
lower-cased. -/
def pycapitalize : Text → Text
  | [] => []
  | c :: cs => c.toUpper :: cs.map Char.toLower

/-- snake_case to PascalCase as the source does it:
`''.join(word.capitalize() for word in name.split('_'))`. -/
def pascalize (l : Text) : Text := ((l.splitOn ('_')).map pycapitalize).flatten

/-- Column splitting: split on commas, strip whitespace, then strip
backticks. -/
def splitColumns (l : Text) : List Text :=
  (l.splitOn (',')).map (fun c => stripChars (· = backtickChar) (pstrip c))

/-- Embedding of `detect_table_and_columns`.  The fallback table name is
the caller-supplied default and the column list is empty when the pattern
is absent. -/
def detect_table_and_columns (content : Text) (tableName : Text) : Text × List Text :=
  match findInsert content with
  | some (nm, cols) => (pascalize nm, splitColumns cols)
  | none => (tableName, [])

/-! ### Step 6 (source): `extract_and_clean_values`

Pattern `VALUES\s+(.*?)(?:;|\n\s*--|\Z)` with `DOTALL` and `IGNORECASE`:
the trailing `\Z` guarantees a match whenever `VALUES` is followed by at
least one whitespace character, so `\s+` keeps its maximal run and the
lazy group ends at the first `;`, at the first newline followed by
optional whitespace and `--`, or at the end of input. -/

/-- Terminator test of the lazy group at the current position. -/
def isTerm : Text → Bool
  | [] => true
  | c :: rest =>
    if c = (';') then true
    else if c = newlineChar then
      match rest.dropWhile isSpaceP with
      | a :: b :: _ => a = ('-') && b = ('-')
      | _ => false
    else false

/-- Characters captured by the lazy group: everything before the first
terminator position. -/
def takeGroup : Text → Text
  | [] => []
  | c :: rest => if isTerm (c :: rest) then [] else c :: takeGroup rest

/-- Leftmost occurrence of `VALUES` (case-insensitive) followed by at
least one whitespace character; returns the text after the maximal
whitespace run. -/
def findValues : Text → Option Text
  | [] => none
  | c :: rest =>
    if ciPrefix (("VALUES").data) (c :: rest) then
      match (c :: rest).drop 6 with
      | d :: tl => if isSpaceP d then some (tl.dropWhile isSpaceP) else findValues rest
      | [] => findValues rest
    else findValues rest

/-- Embedding of `extract_and_clean_values`: the captured group stripped,
right-stripped of semicolons and stripped again; if the pattern is absent
the whole input is returned stripped. -/
def extract_and_clean_values (content : Text) : Text :=
  match findValues content with
  | some afterWs => pstrip (rstripChar (';') (pstrip (takeGroup afterWs)))
  | none => pstrip content

/-! ### The cleaning chain and the script assembler -/

/-- The ordered cleaning chain applied to the extracted values text
(source lines 158-162). -/
def clean_values_chain (t : Text) : Text :=
  fix_quotes_and_special_chars
    (fix_business_terms (fix_apostrophes (fix_newlines_and_formatting t)))

def addonsColumnList : Text :=
  ("(internal_id, id, additional_details, amount, amount_details, best_seller, billing_cycle, brand_name, description, is_new, limited_offer, processed_at, product_name, run_id, seasonal_offer, segment, url, vat_applicable, vat_included, vat_percentage, vat_percentage_details, validity, coverage_amount, coverage_amount_details, validity_details, minutes, minutes_type, data_allowance, data_allowance_details, data_type, minutes_details, coverage_types)").data

def bioColumnList : Text :=
  ("(internal_id, id, Biography, brand_name, processed_at, run_id, segment, url)").data

/-- The column-list selection of `clean_sql_data`: detected columns if
any, else a default keyed on the `Addons` / `Bio` substrings of the
detected table name. -/
def column_list_for (detectedTable : Text) (columns : List Text) : Text :=
  match columns with
  | [] =>
    if containsSeq (("Addons").data) detectedTable then addonsColumnList
    else if containsSeq (("Bio").data) detectedTable then bioColumnList
    else []
  | c :: cs => ('(') :: (List.intercalate ((", ").data) (c :: cs)) ++ [(')')]

/-- The generated SQL Server script (the f-string of the source,
lines 177-212), as a function of the detected table, the column list and
the cleaned values block. -/
def sql_server_script (t columnList cleaned : Text) : Text :=
  ("-- SQL Server INSERT Script for ").data ++ t ++
  ("\n-- Generated by Python cleaning script\n-- Original MySQL data cleaned for SQL Server compatibility\n\n-- Enable IDENTITY_INSERT\nSET IDENTITY_INSERT ").data ++ t ++
  (" ON;\nSET NOCOUNT ON;\n\n-- Begin Transaction for safety\nBEGIN TRANSACTION;\n\nTRY\n    -- Insert statements\n    INSERT INTO ").data ++ t ++
  (" ").data ++ columnList ++ (" VALUES\n    ").data ++ rstripChar (',') cleaned ++
  (";\n    \n    -- Commit if successful\n    COMMIT TRANSACTION;\n    PRINT 'SUCCESS: Data inserted successfully into ").data ++ t ++
  ("';\n    \nEND TRY\nBEGIN CATCH\n    -- Rollback on error\n    ROLLBACK TRANSACTION;\n    PRINT 'ERROR: ' + ERROR_MESSAGE();\n    PRINT 'Error occurred during insert into ").data ++ t ++
  ("';\nEND CATCH\n\n-- Disable IDENTITY_INSERT\nSET IDENTITY_INSERT ").data ++ t ++
  (" OFF;\nSET NOCOUNT OFF;\n\n-- Verify insertion\nSELECT COUNT(*) as 'Total Records in ").data ++ t ++
  ("' FROM ").data ++ t ++
  (";\nSELECT TOP 5 * FROM ").data ++ t ++
  (" ORDER BY internal_id DESC;\n").data

/-- The pure part of `clean_sql_data`: from the raw dump text to the
output script. -/
def build_script (content : Text) (tableName : Text) : Text :=
  let tc := detect_table_and_columns content tableName
  let values := extract_and_clean_values content
  let cleaned := clean_values_chain values
  sql_server_script tc.1 (column_list_for tc.1 tc.2) cleaned

/-- Embedding of the I/O boundary of `clean_sql_data`: the read result
and the write outcome are passed explicitly (`Except` models a raised
Python exception caught by the surrounding `try`/`except`).  Both failure
branches produce `False` (console reporting has no bearing on the
result). -/
def clean_sql_data (readResult : Except Text Text)
    (writeResult : Text → Except Text Unit) (tableName : Text) : Bool :=
  match readResult with
  | Except.error _ => false
  | Except.ok content =>
    match writeResult (build_script content tableName) with
    | Except.error _ => false
    | Except.ok _ => true

/-! ### Basic lemmas about the text primitives -/

/-- Quote-freeness: the distinguished character of the escaping passes is
absent. -/
abbrev qfree (l : Text) : Prop := ∀ c ∈ l, c ≠ quoteChar

theorem isPrefixOf_ex : ∀ (p l : Text), p.isPrefixOf l = true ↔ ∃ r, l = p ++ r
  | [], l => by simp [List.isPrefixOf]
  | p :: ps, [] => by simp [List.isPrefixOf]
  | p :: ps, c :: cs => by
    simp only [List.isPrefixOf, Bool.and_eq_true, beq_iff_eq]
    constructor
    · rintro ⟨h1, h2⟩
      obtain ⟨r, hr⟩ := (isPrefixOf_ex ps cs).1 h2
      exact ⟨r, by simp [h1, hr]⟩
    · rintro ⟨r, hr⟩
      injection hr with hc ht
      exact ⟨hc.symm, (isPrefixOf_ex ps cs).2 ⟨r, ht⟩⟩

theorem containsSeq_ex : ∀ (n h : Text), containsSeq n h = true ↔ ∃ s t, h = s ++ n ++ t
  | n, [] => by
    constructor
    · intro hh
      refine ⟨[], [], ?_⟩
      have : n = [] := by
        simpa [containsSeq, List.isEmpty_iff] using hh
      simp [this]
    · rintro ⟨s, t, hst⟩
      have hs : s = [] ∧ n ++ t = [] := by
        constructor
        · cases s with
          | nil => rfl
          | cons a s' => simp at hst
        · cases s with
          | nil => simpa using hst.symm
          | cons a s' => simp at hst
      have hn : n = [] := by
        cases n with
        | nil => rfl
        | cons a n' =>
          have := hs.2
          simp at this
      simp [containsSeq, hn]
  | n, c :: h' => by
    simp only [containsSeq, Bool.or_eq_true]
    constructor
    · rintro (hp | hc)
      · obtain ⟨r, hr⟩ := (isPrefixOf_ex n (c :: h')).1 hp
        exact ⟨[], r, by simp [hr]⟩
      · obtain ⟨s, t, hst⟩ := (containsSeq_ex n h').1 hc
        exact ⟨c :: s, t, by simp [hst]⟩
    · rintro ⟨s, t, hst⟩
      cases s with
      | nil =>
        left
        exact (isPrefixOf_ex n (c :: h')).2 ⟨t, by simpa using hst⟩
      | cons a s' =>
        right
        injection hst with h1 h2
        exact (containsSeq_ex n h').2 ⟨s', t, h2⟩

theorem containsSeq_of_parts (n s t h : Text) (heq : h = s ++ n ++ t) :
    containsSeq n h = true :=
  (containsSeq_ex n h).2 ⟨s, t, heq⟩

theorem not_containsSeq_of_qfree (n h : Text) (hh : qfree h) (hn : quoteChar ∈ n) :
    containsSeq n h = false := by
  cases hc : containsSeq n h with
  | false => rfl
  | true =>
    obtain ⟨s, t, hst⟩ := (containsSeq_ex n h).1 hc
    have : quoteChar ∈ h := by
      rw [hst]
      simp [hn]
    exact absurd rfl (hh quoteChar this)

theorem dropWhile_head_false {p : Char → Bool} (c : Char) (t : Text) (h : p c = false) :
    (c :: t).dropWhile p = c :: t := by
  simp [List.dropWhile_cons, h]

theorem dropWhile_all_false {p : Char → Bool} (l : Text) (h : ∀ c ∈ l, p c = false) :
    l.dropWhile p = l := by
  cases l with
  | nil => rfl
  | cons c t => exact dropWhile_head_false c t (h c (by simp))

theorem takeWhile_all_append {p : Char → Bool} (a b : Text) (h : ∀ c ∈ a, p c = true) :
    (a ++ b).takeWhile p = a ++ b.takeWhile p := by
  induction a with
  | nil => simp
  | cons c a' ih =>
    have hc : p c = true := h c (by simp)
    simp only [List.cons_append, List.takeWhile_cons, hc, if_true]
    rw [ih (fun x hx => h x (by simp [hx]))]

theorem dropWhile_all_append {p : Char → Bool} (a b : Text) (h : ∀ c ∈ a, p c = true) :
    (a ++ b).dropWhile p = b.dropWhile p := by
  induction a with
  | nil => simp
  | cons c a' ih =>
    have hc : p c = true := h c (by simp)
    simp only [List.cons_append, List.dropWhile_cons, hc, if_true]
    exact ih (fun x hx => h x (by simp [hx]))

theorem takeWhile_head_false {p : Char → Bool} (c : Char) (t : Text) (h : p c = false) :
    (c :: t).takeWhile p = [] := by
  simp [List.takeWhile_cons, h]

theorem mem_takeWhile_pred {p : Char → Bool} : ∀ (l : Text) (c : Char),
    c ∈ l.takeWhile p → p c = true
  | [], c, h => by simp [List.takeWhile] at h
  | a :: l', c, h => by
    by_cases ha : p a = true
    · rw [List.takeWhile_cons, if_pos ha] at h
      rcases List.mem_cons.1 h with h1 | h2
      · exact h1 ▸ ha
      · exact mem_takeWhile_pred l' c h2
    · rw [List.takeWhile_cons, if_neg ha] at h
      simp at h

theorem dropWhile_head_not {p : Char → Bool} : ∀ (l : Text) (c : Char) (t : Text),
    l.dropWhile p = c :: t → p c = false
  | [], c, t, h => by simp [List.dropWhile] at h
  | a :: l', c, t, h => by
    by_cases ha : p a = true
    · rw [List.dropWhile_cons, if_pos ha] at h
      exact dropWhile_head_not l' c t h
    · rw [List.dropWhile_cons, if_neg ha] at h
      injection h with h1 _
      rw [← h1]
      exact Bool.eq_false_iff.2 ha

theorem pstrip_of_all (l : Text) (h : ∀ c ∈ l, isSpaceP c = false) : pstrip l = l := by
  unfold pstrip stripChars
  rw [dropWhile_all_false l h,
    dropWhile_all_false l.reverse (fun c hc => h c (List.mem_reverse.1 hc)),
    List.reverse_reverse]

theorem rstripChar_of_all (ch : Char) (l : Text) (h : ∀ c ∈ l, c ≠ ch) :
    rstripChar ch l = l := by
  unfold rstripChar
  rw [dropWhile_all_false l.reverse
      (fun c hc => by simp [h c (List.mem_reverse.1 hc)]),
    List.reverse_reverse]

theorem isEmpty_false_of_ne (l : Text) (h : l ≠ []) : l.isEmpty = false := by
  cases l with
  | nil => exact absurd rfl h
  | cons a t => rfl

/-! ### Unfolding equations for `py_replace` -/

theorem replAllAux_congr (old new : Text) : ∀ (f g : Nat) (l : Text),
    l.length ≤ f → l.length ≤ g → replAllAux old new f l = replAllAux old new g l := by
  intro f
  induction f with
  | zero =>
    intro g l hf _
    have : l = [] := List.length_eq_zero.1 (Nat.le_zero.1 hf)
    subst this
    cases g <;> rfl
  | succ f ih =>
    intro g l hf hg
    cases l with
    | nil => cases g <;> rfl
    | cons c rest =>
      cases g with
      | zero => simp at hg
      | succ g' =>
        simp only [replAllAux]
        by_cases hp : (old.isPrefixOf (c :: rest) && !old.isEmpty) = true
        · rw [if_pos hp, if_pos hp]
          have hlen : (rest.drop (old.length - 1)).length ≤ rest.length := by
            rw [List.length_drop]
            omega
          rw [ih g' (rest.drop (old.length - 1))
            (le_trans hlen (by simpa using hf)) (le_trans hlen (by simpa using hg))]
        · rw [if_neg hp, if_neg hp]
          rw [ih g' rest (by simpa using hf) (by simpa using hg)]

theorem py_replace_nil (old new : Text) : py_replace old new [] = [] := rfl

theorem py_replace_cons (old new : Text) (c : Char) (rest : Text) :
    py_replace old new (c :: rest) =
      if old.isPrefixOf (c :: rest) && !old.isEmpty then
        new ++ py_replace old new (rest.drop (old.length - 1))
      else c :: py_replace old new rest := by
  unfold py_replace
  simp only [List.length_cons, replAllAux]
  by_cases hp : (old.isPrefixOf (c :: rest) && !old.isEmpty) = true
  · rw [if_pos hp, if_pos hp]
    rw [replAllAux_congr old new rest.length (rest.drop (old.length - 1)).length
      (rest.drop (old.length - 1)) (by rw [List.length_drop]; omega) le_rfl]
  · rw [if_neg hp, if_neg hp]

theorem py_replace_id_of_not_contains (old new t : Text)
    (h : containsSeq old t = false) : py_replace old new t = t := by
  induction t with
  | nil => rfl
  | cons c t' ih =>
    simp only [containsSeq, Bool.or_eq_false_iff] at h
    rw [py_replace_cons, if_neg (by simp [h.1]), ih h.2]

theorem py_replace_id_of_qfree (old new t : Text) (hq : quoteChar ∈ old)
    (ht : qfree t) : py_replace old new t = t :=
  py_replace_id_of_not_contains old new t (not_containsSeq_of_qfree old t ht hq)

/-! ### Factorisation lemmas at the unique quote -/

theorem firstQuoteFactor : ∀ (A C B D : Text), qfree A → qfree C →
    A ++ quoteChar :: B = C ++ quoteChar :: D → A = C ∧ B = D
  | [], [], B, D, _, _, h => by
    simp only [List.nil_append] at h
    injection h with _ h2
    exact ⟨rfl, h2⟩
  | [], c :: C', B, D, hA, hC, h => by
    simp only [List.nil_append, List.cons_append] at h
    injection h with h1 _
    exact absurd h1.symm (hC c (by simp))
  | a :: A', [], B, D, hA, hC, h => by
    simp only [List.nil_append, List.cons_append] at h
    injection h with h1 _
    exact absurd h1 (hA a (by simp))
  | a :: A', c :: C', B, D, hA, hC, h => by
    simp only [List.cons_append] at h
    injection h with h1 h2
    have ih := firstQuoteFactor A' C' B D
      (fun x hx => hA x (by simp [hx])) (fun x hx => hC x (by simp [hx])) h2
    exact ⟨by rw [h1, ih.1], ih.2⟩

theorem lastQuoteFactor (A C B D : Text) (hB : qfree B) (hD : qfree D)
    (h : A ++ quoteChar :: B = C ++ quoteChar :: D) : A = C ∧ B = D := by
  have hrev : B.reverse ++ quoteChar :: A.reverse
      = D.reverse ++ quoteChar :: C.reverse := by
    have := congrArg List.reverse h
    simpa [List.reverse_append, List.append_assoc] using this
  have hf := firstQuoteFactor B.reverse D.reverse A.reverse C.reverse
    (fun x hx => hB x (List.mem_reverse.1 hx))
    (fun x hx => hD x (List.mem_reverse.1 hx)) hrev
  constructor
  · have := congrArg List.reverse hf.2
    simpa using this
  · have := congrArg List.reverse hf.1
    simpa using this

/-- A contraction pattern (nonempty quote-free halves around a single
quote) cannot occur in text whose only quotes form one adjacent pair. -/
theorem no_entry_in_doubled (u v X Y : Text) (hu : u ≠ []) (hv : v ≠ [])
    (hqu : qfree u) (hqv : qfree v) (hX : qfree X) (hY : qfree Y) :
    containsSeq (u ++ quoteChar :: v) (X ++ quoteChar :: quoteChar :: Y) = false := by
  cases hc : containsSeq (u ++ quoteChar :: v) (X ++ quoteChar :: quoteChar :: Y) with
  | false => rfl
  | true =>
    exfalso
    obtain ⟨s, t, hst⟩ := (containsSeq_ex _ _).1 hc
    have hcount : s.count quoteChar + t.count quoteChar = 1 := by
      have := congrArg (List.count quoteChar) hst
      have hXz : X.count quoteChar = 0 := List.count_eq_zero.2 (fun hm => hX _ hm rfl)
      have hYz : Y.count quoteChar = 0 := List.count_eq_zero.2 (fun hm => hY _ hm rfl)
      have huz : u.count quoteChar = 0 := List.count_eq_zero.2 (fun hm => hqu _ hm rfl)
      have hvz : v.count quoteChar = 0 := List.count_eq_zero.2 (fun hm => hqv _ hm rfl)
      simp [List.count_append, List.count_cons, hXz, hYz, huz, hvz] at this
      omega
    have hsplit : s.count quoteChar = 0 ∧ t.count quoteChar = 1 ∨
        s.count quoteChar = 1 ∧ t.count quoteChar = 0 := by omega
    rcases hsplit with ⟨hs0, _⟩ | ⟨_, ht0⟩
    · have hsq : qfree s := fun c hm hcq => by
        have := List.count_eq_zero.1 hs0
        exact this (hcq ▸ hm)
      have heq : X ++ quoteChar :: (quoteChar :: Y)
          = (s ++ u) ++ quoteChar :: (v ++ t) := by
        rw [hst]
        simp [List.append_assoc]
      have hf := firstQuoteFactor X (s ++ u) (quoteChar :: Y) (v ++ t) hX
        (fun c hm => by
          rcases List.mem_append.1 hm with h1 | h2
          · exact hsq c h1
          · exact hqu c h2) heq
      cases hvv : v with
      | nil => exact hv hvv
      | cons v0 v1 =>
        have := hf.2
        rw [hvv] at this
        simp only [List.cons_append] at this
        injection this with h1 _
        exact hqv v0 (by simp [hvv]) h1.symm
    · have htq : qfree t := fun c hm hcq => by
        have := List.count_eq_zero.1 ht0
        exact this (hcq ▸ hm)
      have heq : (X ++ [quoteChar]) ++ quoteChar :: Y
          = (s ++ u) ++ quoteChar :: (v ++ t) := by
        simpa [List.append_assoc] using hst
      have hf := lastQuoteFactor (X ++ [quoteChar]) (s ++ u) Y (v ++ t) hY
        (fun c hm => by
          rcases List.mem_append.1 hm with h1 | h2
          · exact hqv c h1
          · exact htq c h2) heq
      rcases List.eq_nil_or_concat u with hun | ⟨u', a, hua⟩
      · exact hu hun
      · have : X ++ [quoteChar] = (s ++ u') ++ [a] := by
          rw [hf.1, hua]
          simp [List.concat_eq_append, List.append_assoc]
        have hinj := List.append_inj' this (by simp)
        have haq : a = quoteChar := by
          have := hinj.2
          injection this with h1 _
          exact h1.symm
        exact hqu a (by simp [hua, List.concat_eq_append]) haq


/-- When the pattern matches at the head, `py_replace` emits the
replacement and continues after the matched span. -/
theorem py_replace_head (old new l : Text) (hne : old ≠ [])
    (hp : old.isPrefixOf l = true) :
    py_replace old new l = new ++ py_replace old new (l.drop old.length) := by
  cases old with
  | nil => exact absurd rfl hne
  | cons o os =>
    cases l with
    | nil =>
      obtain ⟨r, hr⟩ := (isPrefixOf_ex _ _).1 hp
      simp at hr
    | cons c rest =>
      rw [py_replace_cons, if_pos (by simp [hp])]
      rfl

/-- Applying one entry of the table to text whose single quote sits
between quote-free halves: either the entry does not occur and the text
is unchanged, or its occurrence doubles the (unique) quote. -/
theorem repl_other (u v X Y : Text) (hu : u ≠ [])
    (hqu : qfree u) (hX : qfree X) (hY : qfree Y) :
    py_replace (u ++ quoteChar :: v) (u ++ quoteChar :: quoteChar :: v)
        (X ++ quoteChar :: Y) = X ++ quoteChar :: Y ∨
    py_replace (u ++ quoteChar :: v) (u ++ quoteChar :: quoteChar :: v)
        (X ++ quoteChar :: Y) = X ++ quoteChar :: quoteChar :: Y := by
  induction X with
  | nil =>
    left
    simp only [List.nil_append]
    have hp : (u ++ quoteChar :: v).isPrefixOf (quoteChar :: Y) = false := by
      cases hpp : (u ++ quoteChar :: v).isPrefixOf (quoteChar :: Y) with
      | false => rfl
      | true =>
        exfalso
        obtain ⟨r, hr⟩ := (isPrefixOf_ex _ _).1 hpp
        cases huu : u with
        | nil => exact hu huu
        | cons u0 u1 =>
          rw [huu] at hr
          simp only [List.cons_append, List.append_assoc] at hr
          injection hr with h1 _
          exact hqu u0 (by simp [huu]) h1.symm
    rw [py_replace_cons, if_neg (by simp [hp])]
    rw [py_replace_id_of_qfree _ _ Y (by simp) hY]
  | cons c X' ih =>
    have hX' : qfree X' := fun x hx => hX x (by simp [hx])
    simp only [List.cons_append]
    cases hpp : (u ++ quoteChar :: v).isPrefixOf (c :: (X' ++ quoteChar :: Y)) with
    | true =>
      right
      obtain ⟨r, hr⟩ := (isPrefixOf_ex _ _).1 hpp
      have hr' : (c :: X') ++ quoteChar :: Y = u ++ quoteChar :: (v ++ r) := by
        simpa [List.append_assoc] using hr
      have hf := firstQuoteFactor (c :: X') u Y (v ++ r) hX hqu hr'
      have hrq : qfree r := fun x hx => hY x (by rw [hf.2]; simp [hx])
      have hstep := py_replace_head (u ++ quoteChar :: v)
        (u ++ quoteChar :: quoteChar :: v) (c :: (X' ++ quoteChar :: Y))
        (by simp [List.append_eq_nil]) hpp
      have hdrop : (c :: (X' ++ quoteChar :: Y)).drop (u ++ quoteChar :: v).length = r := by
        have harg : c :: (X' ++ quoteChar :: Y) = (u ++ quoteChar :: v) ++ r := by
          simpa [List.append_assoc] using hr
        rw [harg, List.drop_left]
      rw [hstep, hdrop, py_replace_id_of_qfree _ _ r (by simp) hrq]
      rw [← hf.1, hf.2]
      simp [List.append_assoc]
    | false =>
      rw [py_replace_cons, if_neg (by simp [hpp])]
      rcases ih hX' with h1 | h1
      · left
        rw [h1]
      · right
        rw [h1]

/-- An explicit occurrence of a table entry between quote-free context
is replaced, and nothing else changes. -/
theorem repl_hit (u v X1 Y1 : Text) (hu : u ≠ [])
    (hqu : qfree u) (hX1 : qfree X1) (hY1 : qfree Y1) :
    py_replace (u ++ quoteChar :: v) (u ++ quoteChar :: quoteChar :: v)
        (X1 ++ (u ++ quoteChar :: v) ++ Y1)
      = X1 ++ (u ++ quoteChar :: quoteChar :: v) ++ Y1 := by
  induction X1 with
  | nil =>
    simp only [List.nil_append]
    have hp : (u ++ quoteChar :: v).isPrefixOf ((u ++ quoteChar :: v) ++ Y1) = true :=
      (isPrefixOf_ex _ _).2 ⟨Y1, rfl⟩
    rw [py_replace_head _ _ _ (by simp [List.append_eq_nil]) hp, List.drop_left,
      py_replace_id_of_qfree _ _ Y1 (by simp) hY1]
  | cons c X1' ih =>
    have hX1' : qfree X1' := fun x hx => hX1 x (by simp [hx])
    have hshape : (c :: X1') ++ (u ++ quoteChar :: v) ++ Y1
        = c :: (X1' ++ (u ++ quoteChar :: v) ++ Y1) := by
      simp
    rw [hshape, py_replace_cons, if_neg (by
      simp only [Bool.and_eq_true, not_and]
      intro hpp
      exfalso
      obtain ⟨r, hr⟩ := (isPrefixOf_ex _ _).1 hpp
      have hr' : (c :: (X1' ++ u)) ++ quoteChar :: (v ++ Y1)
          = u ++ quoteChar :: (v ++ r) := by
        simpa [List.append_assoc] using hr
      have hf := firstQuoteFactor (c :: (X1' ++ u)) u (v ++ Y1) (v ++ r)
        (fun x hx => by
          rcases List.mem_cons.1 hx with h1 | h2
          · exact h1 ▸ hX1 c (by simp)
          · rcases List.mem_append.1 h2 with h3 | h4
            · exact hX1' x h3
            · exact hqu x h4) hqu hr'
      have := congrArg List.length hf.1
      simp at this
      omega)]
    rw [ih hX1']
    simp [List.append_assoc]

/-! ### The shape of the contraction table entries -/

/-- An entry is `good` when its key has exactly one quote, not at either
end, and its value is the key with that quote doubled. -/
def goodPair (pr : Text × Text) : Bool :=
  let u := pr.1.takeWhile (· ≠ quoteChar)
  match pr.1.dropWhile (· ≠ quoteChar) with
  | [] => false
  | _ :: v =>
    !u.isEmpty && !v.isEmpty && v.all (· ≠ quoteChar) &&
      (pr.2 = u ++ quoteChar :: quoteChar :: v)

theorem goodPair_struct (pr : Text × Text) (h : goodPair pr = true) :
    ∃ u v, pr.1 = u ++ quoteChar :: v ∧ pr.2 = u ++ quoteChar :: quoteChar :: v ∧
      u ≠ [] ∧ v ≠ [] ∧ qfree u ∧ qfree v := by
  cases hdrop : pr.1.dropWhile (· ≠ quoteChar) with
  | nil =>
    rw [goodPair, hdrop] at h
    simp at h
  | cons d v =>
    rw [goodPair, hdrop] at h
    simp only [Bool.and_eq_true, Bool.not_eq_true', List.all_eq_true,
      decide_eq_true_eq] at h
    obtain ⟨⟨⟨hu, hv⟩, hvq⟩, hd⟩ := h
    have hdq : d = quoteChar := by
      have := dropWhile_head_not pr.1 d v hdrop
      simpa using this
    refine ⟨pr.1.takeWhile (· ≠ quoteChar), v, ?_, hd, ?_, ?_, ?_, ?_⟩
    · have hsplit := List.takeWhile_append_dropWhile (fun x => decide (x ≠ quoteChar)) pr.1
      rw [hdrop, hdq] at hsplit
      exact hsplit.symm
    · intro hh
      rw [hh] at hu
      simp at hu
    · intro hh
      rw [hh] at hv
      simp at hv
    · intro c hc
      have := mem_takeWhile_pred pr.1 c hc
      simpa using this
    · exact hvq

/-! ### Folding the whole table -/

theorem foldl_keep_doubled (L : List (Text × Text))
    (hL : ∀ pr ∈ L, goodPair pr = true) (X Y : Text) (hX : qfree X) (hY : qfree Y) :
    L.foldl (fun acc pr => py_replace pr.1 pr.2 acc)
        (X ++ quoteChar :: quoteChar :: Y) = X ++ quoteChar :: quoteChar :: Y := by
  induction L with
  | nil => rfl
  | cons pr L' ih =>
    obtain ⟨u, v, h1, h2, hu, hv, hqu, hqv⟩ := goodPair_struct pr (hL pr (by simp))
    rw [List.foldl_cons]
    have hstep : py_replace pr.1 pr.2 (X ++ quoteChar :: quoteChar :: Y)
        = X ++ quoteChar :: quoteChar :: Y := by
      rw [h1, h2]
      exact py_replace_id_of_not_contains _ _ _
        (no_entry_in_doubled u v X Y hu hv hqu hqv hX hY)
    rw [hstep]
    exact ih (fun q hq => hL q (by simp [hq]))

theorem foldl_single (L : List (Text × Text))
    (hL : ∀ pr ∈ L, goodPair pr = true) (X Y : Text) (hX : qfree X) (hY : qfree Y) :
    L.foldl (fun acc pr => py_replace pr.1 pr.2 acc) (X ++ quoteChar :: Y)
        = X ++ quoteChar :: Y ∨
    L.foldl (fun acc pr => py_replace pr.1 pr.2 acc) (X ++ quoteChar :: Y)
        = X ++ quoteChar :: quoteChar :: Y := by
  induction L with
  | nil => exact Or.inl rfl
  | cons pr L' ih =>
    obtain ⟨u, v, h1, h2, hu, hv, hqu, hqv⟩ := goodPair_struct pr (hL pr (by simp))
    rw [List.foldl_cons]
    have hL' : ∀ q ∈ L', goodPair q = true := fun q hq => hL q (by simp [hq])
    rcases (by rw [h1, h2]; exact repl_other u v X Y hu hqu hX hY :
        py_replace pr.1 pr.2 (X ++ quoteChar :: Y) = X ++ quoteChar :: Y ∨
        py_replace pr.1 pr.2 (X ++ quoteChar :: Y)
          = X ++ quoteChar :: quoteChar :: Y) with hs | hs
    · rw [hs]
      exact ih hL'
    · rw [hs]
      exact Or.inr (foldl_keep_doubled L' hL' X Y hX hY)

theorem foldl_id_of_no_entry (L : List (Text × Text)) :
    ∀ t : Text, (∀ pr ∈ L, containsSeq pr.1 t = false) →
      L.foldl (fun acc pr => py_replace pr.1 pr.2 acc) t = t := by
  induction L with
  | nil => intro t _; rfl
  | cons pr L' ih =>
    intro t ht
    rw [List.foldl_cons, py_replace_id_of_not_contains _ _ _ (ht pr (by simp))]
    exact ih t (fun q hq => ht q (by simp [hq]))

/-! ### Counting occurrences across a concatenation -/

/-- Occurrences of `n` that start inside `A` when `A ++ W` is scanned. -/
def countPre (n A W : Text) : Nat :=
  match A with
  | [] => 0
  | c :: A' => (if n.isPrefixOf (c :: (A' ++ W)) then 1 else 0) + countPre n A' W

theorem countOccur_append (n A W : Text) :
    countOccur n (A ++ W) = countPre n A W + countOccur n W := by
  induction A with
  | nil => simp [countPre]
  | cons c A' ih =>
    simp only [List.cons_append, countOccur, countPre, List.append_eq, ih]
    omega

theorem countOccur_eq_countPre_nil (n A : Text) : countOccur n A = countPre n A [] := by
  have := countOccur_append n A []
  simpa [countOccur] using this

theorem prefix_mono (n s W : Text) (h : n.isPrefixOf s = true) :
    n.isPrefixOf (s ++ W) = true := by
  obtain ⟨r, hr⟩ := (isPrefixOf_ex n s).1 h
  exact (isPrefixOf_ex _ _).2 ⟨r ++ W, by rw [hr]; simp [List.append_assoc]⟩

theorem prefix_trunc (n s W : Text) (h : n.isPrefixOf (s ++ W) = true)
    (hl : n.length ≤ s.length) : n.isPrefixOf s = true := by
  obtain ⟨r, hr⟩ := (isPrefixOf_ex _ _).1 h
  have htake : s.take n.length = n := by
    have h1 : (s ++ W).take n.length = s.take n.length := by
      rw [List.take_append_eq_append_take]
      have : n.length - s.length = 0 := by omega
      simp [this]
    have h2 : (s ++ W).take n.length = n := by
      rw [hr]
      exact List.take_left n r
    rw [← h1, h2]
  refine (isPrefixOf_ex _ _).2 ⟨s.drop n.length, ?_⟩
  conv_lhs => rw [← List.take_append_drop n.length s]
  rw [htake]

theorem prefix_take_decomp (n s W : Text) (h : n.isPrefixOf (s ++ W) = true)
    (hl : s.length ≤ n.length) : n = s ++ W.take (n.length - s.length) := by
  obtain ⟨r, hr⟩ := (isPrefixOf_ex _ _).1 h
  have h1 : (s ++ W).take n.length = s ++ W.take (n.length - s.length) := by
    rw [List.take_append_eq_append_take, List.take_of_length_le hl]
  have h2 : (s ++ W).take n.length = n := by
    rw [hr]
    exact List.take_left n r
  rw [← h1, h2]

theorem countPre_zero (n v B : Text)
    (h : ∀ s, s <:+ v → s ≠ [] → n.isPrefixOf (s ++ B) = false) :
    countPre n v B = 0 := by
  induction v with
  | nil => rfl
  | cons c v' ih =>
    have hind : n.isPrefixOf (c :: (v' ++ B)) = false := by
      have := h (c :: v') List.suffix_rfl (by simp)
      simpa using this
    have ih' := ih (fun s hs hne => h s (hs.trans (List.suffix_cons c v')) hne)
    simp [countPre, hind, ih']

theorem countPre_congr (n A W : Text)
    (h : ∀ s, s <:+ A → s ≠ [] → n.isPrefixOf (s ++ W) = n.isPrefixOf s) :
    countPre n A W = countPre n A [] := by
  induction A with
  | nil => rfl
  | cons c A' ih =>
    have hhead : n.isPrefixOf (c :: (A' ++ W)) = n.isPrefixOf (c :: A') := by
      have := h (c :: A') List.suffix_rfl (by simp)
      simpa using this
    simp only [countPre, hhead, List.append_nil]
    rw [ih (fun s hs hne => h s (hs.trans (List.suffix_cons c A')) hne)]

theorem suffix_drop_of_suffix (s A : Text) (k : Nat) (hs : s <:+ A)
    (hk : s.length ≤ k) : s <:+ A.drop (A.length - k) := by
  obtain ⟨X, hX⟩ := hs
  have hlen : A.length = X.length + s.length := by
    rw [← hX]
    simp
  refine ⟨X.drop (A.length - k), ?_⟩
  have hz : A.length - k - X.length = 0 := by omega
  calc X.drop (A.length - k) ++ s
      = X.drop (A.length - k) ++ s.drop (A.length - k - X.length) := by
        rw [hz, List.drop_zero]
    _ = (X ++ s).drop (A.length - k) := List.drop_append_eq_append_drop.symm
    _ = A.drop (A.length - k) := by rw [hX]

/-- Occurrences of `n` in `A ++ v ++ B` are exactly those of `A` and those
of `B` whenever no occurrence touches the middle `v`: the hypothesis says
`n` does not occur in the window made of the last `|n|-1` characters of
`A`, all of `v`, and the first `|n|-1` characters of `B`. -/
theorem countOccur_mid (n A v B : Text) (hn : n ≠ [])
    (hw : containsSeq n
      (A.drop (A.length - (n.length - 1)) ++ v ++ B.take (n.length - 1)) = false) :
    countOccur n (A ++ v ++ B) = countOccur n A + countOccur n B := by
  have hnlen : 1 ≤ n.length := by
    cases n with
    | nil => exact absurd rfl hn
    | cons a t => simp
  obtain ⟨K, hK⟩ : ∃ K, K = n.length - 1 := ⟨_, rfl⟩
  obtain ⟨D, hD⟩ : ∃ D, D = A.drop (A.length - K) := ⟨_, rfl⟩
  obtain ⟨W, hW⟩ : ∃ W, W = B.take K := ⟨_, rfl⟩
  rw [← hK, ← hD, ← hW] at hw
  have hmid : countPre n v B = 0 := by
    apply countPre_zero
    intro s hs hsne
    cases hps : n.isPrefixOf (s ++ B) with
    | false => rfl
    | true =>
      exfalso
      obtain ⟨X, hX⟩ := hs
      have hslen : 1 ≤ s.length := by
        cases s with
        | nil => exact absurd rfl hsne
        | cons a t => simp
      rcases le_or_lt n.length s.length with hle | hgt
      · have hpfx := prefix_trunc n s B hps hle
        obtain ⟨s2, hs2⟩ := (isPrefixOf_ex _ _).1 hpfx
        have hct : containsSeq n (D ++ v ++ W) = true := by
          apply containsSeq_of_parts n (D ++ X) (s2 ++ W)
          rw [← hX, hs2]
          simp [List.append_assoc]
        rw [hct] at hw
        simp at hw
      · obtain ⟨k, hk⟩ : ∃ k, k = n.length - s.length := ⟨_, rfl⟩
        have hksK : k ≤ K := by omega
        have hdec2 : n = s ++ W.take k := by
          have h1 : W.take k = B.take k := by
            rw [hW, List.take_take]
            congr 1
            omega
          rw [h1, hk]
          exact prefix_take_decomp n s B hps (by omega)
        have hfact : D ++ v ++ W = (D ++ X) ++ n ++ W.drop k := by
          conv_rhs => rw [hdec2]
          conv_lhs => rw [← hX, ← List.take_append_drop k W]
          simp [List.append_assoc]
        have hct := containsSeq_of_parts n (D ++ X) (W.drop k) (D ++ v ++ W) hfact
        rw [hct] at hw
        simp at hw
  have hpre : countPre n A (v ++ B) = countPre n A [] := by
    apply countPre_congr
    intro s hs hsne
    cases hons : n.isPrefixOf s with
    | true => exact prefix_mono n s (v ++ B) hons
    | false =>
      cases hps : n.isPrefixOf (s ++ (v ++ B)) with
      | false => rfl
      | true =>
        exfalso
        have hslen : 1 ≤ s.length := by
          cases s with
          | nil => exact absurd rfl hsne
          | cons a t => simp
        rcases le_or_lt n.length s.length with hle | hgt
        · rw [prefix_trunc n s (v ++ B) hps hle] at hons
          simp at hons
        · have hwind : s <:+ A.drop (A.length - K) :=
            suffix_drop_of_suffix s A K hs (by omega)
          rw [← hD] at hwind
          obtain ⟨X2, hX2⟩ := hwind
          obtain ⟨k, hk⟩ : ∃ k, k = n.length - s.length := ⟨_, rfl⟩
          have hdecvb : n = s ++ (v ++ B).take k := by
            rw [hk]
            exact prefix_take_decomp n s (v ++ B) hps (by omega)
          rcases le_or_lt k v.length with hkv | hkv
          · have hdec2 : n = s ++ v.take k := by
              rw [hdecvb]
              congr 1
              rw [List.take_append_eq_append_take]
              have hz : k - v.length = 0 := by omega
              simp [hz]
            have hfact : D ++ v ++ W = X2 ++ n ++ (v.drop k ++ W) := by
              conv_rhs => rw [hdec2]
              conv_lhs => rw [← hX2, ← List.take_append_drop k v]
              simp only [List.append_assoc]
            have hct := containsSeq_of_parts n X2 (v.drop k ++ W) (D ++ v ++ W) hfact
            rw [hct] at hw
            simp at hw
          · obtain ⟨k2, hk2⟩ : ∃ k2, k2 = k - v.length := ⟨_, rfl⟩
            have hk2K : k2 ≤ K := by omega
            have hdec2 : n = s ++ (v ++ W.take k2) := by
              have h1 : W.take k2 = B.take k2 := by
                rw [hW, List.take_take]
                congr 1
                omega
              have h2 : (v ++ B).take k = v ++ B.take k2 := by
                rw [List.take_append_eq_append_take, List.take_of_length_le (by omega), hk2]
              rw [hdecvb, h2, h1]
            have hfact : D ++ v ++ W = X2 ++ n ++ W.drop k2 := by
              conv_rhs => rw [hdec2]
              conv_lhs => rw [← hX2, ← List.take_append_drop k2 W]
              simp [List.append_assoc]
            have hct := containsSeq_of_parts n X2 (W.drop k2) (D ++ v ++ W) hfact
            rw [hct] at hw
            simp at hw
  calc countOccur n (A ++ v ++ B)
      = countOccur n (A ++ (v ++ B)) := by rw [List.append_assoc]
    _ = countPre n A (v ++ B) + countOccur n (v ++ B) := countOccur_append n A (v ++ B)
    _ = countPre n A (v ++ B) + (countPre n v B + countOccur n B) := by
        rw [countOccur_append n v B]
    _ = countPre n A [] + (0 + countOccur n B) := by rw [hpre, hmid]
    _ = countOccur n A + countOccur n B := by rw [← countOccur_eq_countPre_nil]; omega

/-! ### Computation lemmas for the extractor and the detector -/

theorem ciPrefix_self_append : ∀ (p r : Text), ciPrefix p (p ++ r) = true
  | [], r => rfl
  | c :: p', r => by
    simp [List.cons_append, ciPrefix, ciPrefix_self_append p' r]

theorem findValues_skip (pre X : Text) (hpre : ∀ c ∈ pre, c.toLower ≠ ('v')) :
    findValues (pre ++ X) = findValues X := by
  induction pre with
  | nil => simp
  | cons c pre' ih =>
    have h1 : ¬(('V').toLower = c.toLower) := fun he =>
      hpre c (by simp) (he.symm.trans (by decide))
    have hcp : ciPrefix (("VALUES").data) (c :: (pre' ++ X)) = false := by
      show (decide (('V').toLower = c.toLower)
        && ciPrefix (("ALUES").data) (pre' ++ X)) = false
      rw [decide_eq_false h1, Bool.false_and]
    rw [List.cons_append, findValues]
    simp only [hcp, Bool.false_eq_true, if_false]
    exact ih (fun x hx => hpre x (by simp [hx]))

theorem findValues_at_values (Y : Text) :
    findValues (("VALUES ").data ++ Y) = some (Y.dropWhile isSpaceP) := rfl

theorem takeGroup_append (g tail : Text)
    (hg : ∀ c ∈ g, c ≠ (';') ∧ c ≠ newlineChar) :
    takeGroup (g ++ (';') :: tail) = g := by
  induction g with
  | nil =>
    show takeGroup ((';') :: tail) = []
    rw [takeGroup]
    simp [isTerm]
  | cons c g' ih =>
    have hc := hg c (by simp)
    have hterm : isTerm (c :: (g' ++ (';') :: tail)) = false := by
      rw [isTerm]
      simp [hc.1, hc.2]
    rw [List.cons_append, takeGroup]
    simp only [hterm, Bool.false_eq_true, if_false]
    rw [ih (fun x hx => hg x (by simp [hx]))]

/-- Core behaviour of the extractor on an input of the shape
`pre ++ "VALUES " ++ g ++ ";" ++ tail` where `pre` cannot start a match
and `g` is free of whitespace and semicolons: the block `g` is returned. -/
theorem extract_shaped (pre g tail : Text)
    (hpre : ∀ c ∈ pre, c.toLower ≠ ('v'))
    (hg : ∀ c ∈ g, isSpaceP c = false ∧ c ≠ (';')) :
    extract_and_clean_values (pre ++ ("VALUES ").data ++ g ++ (';') :: tail) = g := by
  have hgnl : ∀ c ∈ g, c ≠ (';') ∧ c ≠ newlineChar := by
    intro c hc
    refine ⟨(hg c hc).2, ?_⟩
    intro he
    have := (hg c hc).1
    rw [he] at this
    simp [isSpaceP] at this
  have hdw : (g ++ (';') :: tail).dropWhile isSpaceP = g ++ (';') :: tail := by
    cases g with
    | nil =>
      apply dropWhile_head_false
      decide
    | cons c g' =>
      apply dropWhile_head_false
      exact (hg c (by simp)).1
  have hfv : findValues (pre ++ ("VALUES ").data ++ g ++ (';') :: tail)
      = some (g ++ (';') :: tail) := by
    have hassoc : pre ++ ("VALUES ").data ++ g ++ (';') :: tail
        = pre ++ (("VALUES ").data ++ (g ++ (';') :: tail)) := by
      simp [List.append_assoc]
    rw [hassoc, findValues_skip pre _ hpre, findValues_at_values, hdw]
  rw [extract_and_clean_values, hfv]
  show pstrip (rstripChar (';') (pstrip (takeGroup (g ++ (';') :: tail)))) = g
  rw [takeGroup_append g tail hgnl]
  rw [pstrip_of_all g (fun c hc => (hg c hc).1)]
  rw [rstripChar_of_all (';') g (fun c hc => (hg c hc).2)]
  rw [pstrip_of_all g (fun c hc => (hg c hc).1)]

theorem findInsert_skip (pre X : Text) (hpre : ∀ c ∈ pre, c.toLower ≠ ('i')) :
    findInsert (pre ++ X) = findInsert X := by
  induction pre with
  | nil => simp
  | cons c pre' ih =>
    have h1 : ¬(('I').toLower = c.toLower) := fun he =>
      hpre c (by simp) (he.symm.trans (by decide))
    have hcp : ciPrefix (("INSERT INTO ").data) (c :: (pre' ++ X)) = false := by
      show (decide (('I').toLower = c.toLower)
        && ciPrefix (("NSERT INTO ").data) (pre' ++ X)) = false
      rw [decide_eq_false h1, Bool.false_and]
    have hm : matchInsertAt (c :: (pre' ++ X)) = none := by
      rw [matchInsertAt]
      simp only [hcp, Bool.false_eq_true, if_false]
    rw [List.cons_append, findInsert]
    simp only [hm]
    exact ih (fun x hx => hpre x (by simp [hx]))

theorem matchInsert_shaped (name cols tail : Text) (hname : name ≠ [])
    (hword : ∀ c ∈ name, isWordChar c = true) (hcols : cols ≠ [])
    (hcp : ∀ c ∈ cols, c ≠ (')')) :
    matchInsertAt (("INSERT INTO ").data ++ (name ++ ((' ') :: ('(') :: (cols ++ (')') :: tail))))
      = some (name, cols) := by
  obtain ⟨n0, name', hn⟩ : ∃ a t, name = a :: t := by
    cases name with
    | nil => exact absurd rfl hname
    | cons a t => exact ⟨a, t, rfl⟩
  have hn0 : isWordChar n0 = true := hword n0 (by simp [hn])
  rw [matchInsertAt]
  rw [ciPrefix_self_append]
  simp only [if_true]
  have hdrop12 : (("INSERT INTO ").data
      ++ (name ++ ((' ') :: ('(') :: (cols ++ (')') :: tail)))).drop 12
      = name ++ ((' ') :: ('(') :: (cols ++ (')') :: tail)) := by
    rw [show (12 : Nat) = ("INSERT INTO ").data.length from rfl, List.drop_left]
  rw [hdrop12]
  have hhead : (name ++ ((' ') :: ('(') :: (cols ++ (')') :: tail))).head? = some n0 := by
    rw [hn]
    rfl
  have hnotbt : ¬((name ++ ((' ') :: ('(') :: (cols ++ (')') :: tail))).head? = some backtickChar) := by
    rw [hhead]
    intro he
    injection he with he2
    rw [he2] at hn0
    exact absurd hn0 (by decide)
  rw [if_neg hnotbt]
  have htw : (name ++ ((' ') :: ('(') :: (cols ++ (')') :: tail))).takeWhile isWordChar
      = name := by
    rw [takeWhile_all_append _ _ hword, takeWhile_head_false _ _ (by decide), List.append_nil]
  have hdww : (name ++ ((' ') :: ('(') :: (cols ++ (')') :: tail))).dropWhile isWordChar
      = (' ') :: ('(') :: (cols ++ (')') :: tail) := by
    rw [dropWhile_all_append _ _ hword, dropWhile_head_false _ _ (by decide)]
  rw [htw, hdww]
  simp only [isEmpty_false_of_ne name hname, Bool.false_eq_true, if_false]
  rw [if_neg (by
    intro he
    rw [List.head?] at he
    injection he with he2
    revert he2
    decide)]
  have hsp : ((' ') :: ('(') :: (cols ++ (')') :: tail)).dropWhile isSpaceP
      = ('(') :: (cols ++ (')') :: tail) := by
    rw [List.dropWhile_cons]
    simp only [show isSpaceP (' ') = true from by decide, if_true]
    exact dropWhile_head_false _ _ (by decide)
  rw [hsp]
  simp only [if_true]
  have htwc : (cols ++ (')') :: tail).takeWhile (fun c => c ≠ (')')) = cols := by
    rw [takeWhile_all_append _ _ (fun c hc => by simp [hcp c hc]),
      takeWhile_head_false _ _ (by decide), List.append_nil]
  have hdwc : (cols ++ (')') :: tail).dropWhile (fun c => c ≠ (')')) = (')') :: tail := by
    rw [dropWhile_all_append _ _ (fun c hc => by simp [hcp c hc]),
      dropWhile_head_false _ _ (by decide)]
  rw [htwc, hdwc]
  simp only [isEmpty_false_of_ne cols hcols, Bool.false_eq_true, if_false]

theorem findInsert_cons_of_match (c : Char) (rest : Text) (x : Text × Text)
    (h : matchInsertAt (c :: rest) = some x) : findInsert (c :: rest) = some x := by
  rw [findInsert, h]

theorem findInsert_shaped (name cols tail : Text) (hname : name ≠ [])
    (hword : ∀ c ∈ name, isWordChar c = true) (hcols : cols ≠ [])
    (hcp : ∀ c ∈ cols, c ≠ (')')) :
    findInsert (("INSERT INTO ").data
        ++ (name ++ ((' ') :: ('(') :: (cols ++ (')') :: tail))))
      = some (name, cols) :=
  findInsert_cons_of_match ('I')
    (("NSERT INTO ").data ++ (name ++ ((' ') :: ('(') :: (cols ++ (')') :: tail))))
    (name, cols) (matchInsert_shaped name cols tail hname hword hcols hcp)

/-- Core behaviour of the detector on a dump containing an
`INSERT INTO name (cols)` clause after a prefix that cannot start a
match. -/
theorem detect_shaped (pre name cols tail d : Text)
    (hpre : ∀ c ∈ pre, c.toLower ≠ ('i')) (hname : name ≠ [])
    (hword : ∀ c ∈ name, isWordChar c = true) (hcols : cols ≠ [])
    (hcp : ∀ c ∈ cols, c ≠ (')')) :
    detect_table_and_columns
        (pre ++ ("INSERT INTO ").data ++ name ++ (" (").data ++ cols ++ (")").data ++ tail) d
      = (pascalize name, splitColumns cols) := by
  have h1 : (" (").data = [(' '), ('(')] := rfl
  have h2 : ((")").data : Text) = [(')')] := rfl
  have hshape : pre ++ ("INSERT INTO ").data ++ name ++ (" (").data ++ cols ++ (")").data ++ tail
      = pre ++ (("INSERT INTO ").data ++ (name ++ ((' ') :: ('(') :: (cols ++ (')') :: tail)))) := by
    rw [h1, h2]
    simp [List.append_assoc]
  have hfi : findInsert
      (pre ++ (("INSERT INTO ").data ++ (name ++ ((' ') :: ('(') :: (cols ++ (')') :: tail)))))
      = some (name, cols) := by
    rw [findInsert_skip pre _ hpre]
    exact findInsert_shaped name cols tail hname hword hcols hcp
  rw [hshape]
  simp only [detect_table_and_columns, hfi]

/-! ### The generated script for the `CombinedBio` scenario -/

def bioA : Text :=
  ("-- SQL Server INSERT Script for CombinedBio\n-- Generated by Python cleaning script\n-- Original MySQL data cleaned for SQL Server compatibility\n\n-- Enable IDENTITY_INSERT\n").data

def bioOn : Text := ("SET IDENTITY_INSERT CombinedBio ON;").data

def bioB : Text :=
  ("\nSET NOCOUNT ON;\n\n-- Begin Transaction for safety\nBEGIN TRANSACTION;\n\nTRY\n    -- Insert statements\n    ").data

def bioNeedle : Text := ("INSERT INTO CombinedBio").data

def bioC1 : Text :=
  (" (internal_id, id, Biography, brand_name, processed_at, run_id, segment, url) VALUES\n    ").data

def bioC2 : Text :=
  (";\n    \n    -- Commit if successful\n    COMMIT TRANSACTION;\n    PRINT 'SUCCESS: Data inserted successfully into CombinedBio';\n    \nEND TRY\nBEGIN CATCH\n    -- Rollback on error\n    ROLLBACK TRANSACTION;\n    PRINT 'ERROR: ' + ERROR_MESSAGE();\n    PRINT 'Error occurred during insert into CombinedBio';\nEND CATCH\n\n-- Disable IDENTITY_INSERT\n").data

def bioOff : Text := ("SET IDENTITY_INSERT CombinedBio OFF;").data

def bioD : Text :=
  ("\nSET NOCOUNT OFF;\n\n-- Verify insertion\nSELECT COUNT(*) as 'Total Records in CombinedBio' FROM CombinedBio;\n").data

def bioTop5 : Text := ("SELECT TOP 5 * FROM CombinedBio ORDER BY internal_id DESC;\n").data

/-- The part of the generated `CombinedBio` script before the cleaned
values block. -/
def bioPre : Text := bioA ++ bioOn ++ bioB ++ bioNeedle ++ bioC1

/-- The part of the generated `CombinedBio` script after the cleaned
values block. -/
def bioPost : Text := bioC2 ++ bioOff ++ bioD ++ bioTop5

set_option maxRecDepth 16384 in
theorem bio_script_decomp (v : Text) :
    sql_server_script (("CombinedBio").data) (column_list_for (("CombinedBio").data) []) v
      = bioPre ++ rstripChar (',') v ++ bioPost := by
  have hcl : column_list_for (("CombinedBio").data) [] = bioColumnList := by decide
  rw [sql_server_script, hcl]
  have hP : ("-- SQL Server INSERT Script for ").data ++ (("CombinedBio").data) ++ ("\n-- Generated by Python cleaning script\n-- Original MySQL data cleaned for SQL Server compatibility\n\n-- Enable IDENTITY_INSERT\nSET IDENTITY_INSERT ").data ++ (("CombinedBio").data) ++ (" ON;\nSET NOCOUNT ON;\n\n-- Begin Transaction for safety\nBEGIN TRANSACTION;\n\nTRY\n    -- Insert statements\n    INSERT INTO ").data ++ (("CombinedBio").data) ++ (" ").data ++ bioColumnList ++ (" VALUES\n    ").data = bioPre := by decide
  rw [hP]
  simp only [List.append_assoc]
  have hQ : (";\n    \n    -- Commit if successful\n    COMMIT TRANSACTION;\n    PRINT 'SUCCESS: Data inserted successfully into ").data ++ ((("CombinedBio").data) ++ (("';\n    \nEND TRY\nBEGIN CATCH\n    -- Rollback on error\n    ROLLBACK TRANSACTION;\n    PRINT 'ERROR: ' + ERROR_MESSAGE();\n    PRINT 'Error occurred during insert into ").data ++ ((("CombinedBio").data) ++ (("';\nEND CATCH\n\n-- Disable IDENTITY_INSERT\nSET IDENTITY_INSERT ").data ++ ((("CombinedBio").data) ++ ((" OFF;\nSET NOCOUNT OFF;\n\n-- Verify insertion\nSELECT COUNT(*) as 'Total Records in ").data ++ ((("CombinedBio").data) ++ (("' FROM ").data ++ ((("CombinedBio").data) ++ ((";\nSELECT TOP 5 * FROM ").data ++ ((("CombinedBio").data) ++ ((" ORDER BY internal_id DESC;\n").data)))))))))))) = bioPost := by decide
  rw [hQ]

/-! ### Claims -/

/-- Claim C1 (code bug): the contract demands that after the generic
quote fixer every single quote inside a single-quoted literal is doubled,
but the lazy regex closes each literal at the first single quote, so a
bare internal quote (here in `'dog's'`, a contraction outside the 4.4
vocabulary) is treated as a closing delimiter and survives undoubled: the
fixer returns the input unchanged instead of `'dog''s'`. -/
theorem C1_bare_quote_not_doubled :
    fix_quotes_and_special_chars (("'dog's'").data) = ("'dog's'").data ∧
      fix_quotes_and_special_chars (("'dog's'").data) ≠ ("'dog''s'").data := by
  decide

/-- Claim C2 (code bug): the spec demands idempotence on
already-correctly-escaped text (no quote count may increase), but on the
correctly escaped literal `'a\'''` (content `a`, backslash, quote) the
`\\.`-branch of the regex absorbs the backslash together with the first
quote of the doubled pair, the captured group `a\'` has its quote doubled
and the output `'a\''''` has five quotes instead of four. -/
theorem C2_escaped_input_gains_quote :
    fix_quotes_and_special_chars (("'a\\'''").data) = ("'a\\''''").data ∧
      List.count quoteChar (fix_quotes_and_special_chars (("'a\\'''").data))
        = List.count quoteChar (("'a\\'''").data) + 1 := by
  decide

/-- Claim C3 counterexample: the claim asserts that on the scenario input
the token `'T100'` is rewritten to `''T100''`; in this input `T100` is
not quote-delimited (it is surrounded by spaces), the business-term
regex `'T(\d+)'` does not fire, and the chain's output contains no
`''T100''`. -/
theorem C3_counterexample_no_tcode_rewrite :
    containsSeq (("''T100''").data)
      (clean_values_chain (("(1, 'it''s T100 test\\n line2')").data)) = false := by
  decide

/-- Claim C3 (amended): on the scenario input the full chain (normalizer,
apostrophe fixer, business-term fixer, generic quote fixer) turns the
literal backslash-n into a space and collapses the whitespace, producing
the single flattened, correctly double-quoted literal
`(1, 'it''s T100 test line2')`; the `'T100'` rewrite does not apply
because `T100` is not quote-delimited in this input. -/
theorem C3_chain_flattens_scenario_input :
    clean_values_chain (("(1, 'it''s T100 test\\n line2')").data)
      = ("(1, 'it''s T100 test line2')").data := by
  decide

/-- Claim C4 counterexample: the claim asserts that every input
containing the keyword `VALUES` has the text after `VALUES` extracted
(up to the semicolon, with the semicolon stripped) — expected `(1)` here.
But the regex requires at least one whitespace character after `VALUES`,
so on `VALUES(1);` it does not match at all and the extractor falls back
to the entire input, stripped only of surrounding whitespace. -/
theorem C4_counterexample_values_without_space :
    extract_and_clean_values (("VALUES(1);").data) = ("VALUES(1);").data ∧
      extract_and_clean_values (("VALUES(1);").data) ≠ ("(1)").data := by
  decide

/-- Claim C4 (amended): when `VALUES` is followed by at least one
whitespace character, the extractor returns the text after the
whitespace run up to the first terminator (first conjunct: a
whitespace/semicolon-free block before a `;` is returned exactly, for
any prefix that cannot start a match and any trailing text); when the
pattern `VALUES\s` does not occur at all, the entire input is returned
stripped, and no error is raised (second conjunct). -/
theorem C4_extractor_behaviour :
    (∀ pre g tail : Text, (∀ c ∈ pre, c.toLower ≠ ('v')) →
      (∀ c ∈ g, isSpaceP c = false ∧ c ≠ (';')) →
      extract_and_clean_values (pre ++ ("VALUES ").data ++ g ++ (';') :: tail) = g)
    ∧ (∀ s : Text, findValues s = none →
        extract_and_clean_values s = pstrip s) := by
  constructor
  · exact extract_shaped
  · intro s hs
    simp only [extract_and_clean_values, hs]

/-- Witness for C4: both conjuncts applied at concrete inputs. -/
theorem C4_extractor_behaviour_witness :
    extract_and_clean_values ((("-- x\n").data) ++ ("VALUES ").data
        ++ (("(1,'a'),(2,'b')").data) ++ (';') :: (("\n-- tail").data))
      = (("(1,'a'),(2,'b')").data) ∧
    extract_and_clean_values (("no keyword here").data)
      = pstrip (("no keyword here").data) :=
  ⟨C4_extractor_behaviour.1 (("-- x\n").data) (("(1,'a'),(2,'b')").data)
      (("\n-- tail").data) (by decide) (by decide),
    C4_extractor_behaviour.2 (("no keyword here").data) (by decide)⟩

/-- Claim C5: on any dump containing `INSERT INTO <name> (<cols>)` (after
a prefix that cannot start a match), the detector returns the table name
in PascalCase (split on underscores, each segment capitalised) and the
column names split on commas, stripped of whitespace and backticks; on
any dump where the pattern is absent it returns the caller-supplied
default with an empty column list, raising no error. -/
theorem C5_detector_behaviour :
    (∀ pre name cols tail d : Text, (∀ c ∈ pre, c.toLower ≠ ('i')) →
      name ≠ [] → (∀ c ∈ name, isWordChar c = true) →
      cols ≠ [] → (∀ c ∈ cols, c ≠ (')')) →
      detect_table_and_columns
        (pre ++ ("INSERT INTO ").data ++ name ++ (" (").data ++ cols ++ (")").data ++ tail) d
        = (pascalize name, splitColumns cols))
    ∧ (∀ s d : Text, findInsert s = none →
        detect_table_and_columns s d = (d, [])) := by
  constructor
  · exact detect_shaped
  · intro s d hs
    simp only [detect_table_and_columns, hs]

/-- Witness for C5: `combined_addons` becomes `CombinedAddons`, columns
are split and stripped of backticks; a dump with no INSERT clause yields
the fallback. -/
theorem C5_detector_behaviour_witness :
    detect_table_and_columns ((("-- dump\n").data) ++ ("INSERT INTO ").data
        ++ (("combined_addons").data) ++ (" (").data
        ++ (("`internal_id`, id").data) ++ (")").data ++ ((" VALUES (1);").data))
        (("X").data)
      = (("CombinedAddons").data, [("internal_id").data, ("id").data]) ∧
    detect_table_and_columns (("nothing to see").data) (("CombinedAddons").data)
      = (("CombinedAddons").data, []) :=
  ⟨(C5_detector_behaviour.1 (("-- dump\n").data) (("combined_addons").data)
      (("`internal_id`, id").data) ((" VALUES (1);").data) (("X").data)
      (by decide) (by decide) (by decide) (by decide) (by decide)).trans (by decide),
    C5_detector_behaviour.2 (("nothing to see").data) (("CombinedAddons").data) (by decide)⟩

/-- Claim C6: for every contraction in the table, an occurrence of its
natural single-quote form between quote-free context is replaced by the
form with the internal quote doubled (the sequential `str.replace`
passes may fire on an embedded earlier entry, e.g. `he'll` inside
`she'll`, but the result is the same doubled form, and no later pass
touches the already-doubled quote). -/
theorem C6_contraction_doubling :
    ∀ pr ∈ apostrophe_fixes, ∀ pre post : Text, qfree pre → qfree post →
      fix_apostrophes (pre ++ pr.1 ++ post) = pre ++ pr.2 ++ post := by
  intro pr hmem pre post hpre hpost
  have hall : ∀ q ∈ apostrophe_fixes, goodPair q = true := by decide
  obtain ⟨l1, l2, hsplit⟩ := List.append_of_mem hmem
  obtain ⟨u, v, h1, h2, hu, hv, hqu, hqv⟩ := goodPair_struct pr (hall pr hmem)
  have hX : qfree (pre ++ u) := fun c hc => by
    rcases List.mem_append.1 hc with h | h
    · exact hpre c h
    · exact hqu c h
  have hY : qfree (v ++ post) := fun c hc => by
    rcases List.mem_append.1 hc with h | h
    · exact hqv c h
    · exact hpost c h
  have hl1 : ∀ q ∈ l1, goodPair q = true := fun q hq => hall q (by rw [hsplit]; simp [hq])
  have hl2 : ∀ q ∈ l2, goodPair q = true := fun q hq => hall q (by rw [hsplit]; simp [hq])
  have hshape : pre ++ pr.1 ++ post = (pre ++ u) ++ quoteChar :: (v ++ post) := by
    rw [h1]
    simp [List.append_assoc]
  have hfinal : (pre ++ u) ++ quoteChar :: quoteChar :: (v ++ post) = pre ++ pr.2 ++ post := by
    rw [h2]
    simp [List.append_assoc]
  rw [fix_apostrophes, hsplit, List.foldl_append, List.foldl_cons, hshape]
  rcases foldl_single l1 hl1 (pre ++ u) (v ++ post) hX hY with hS | hS
  · rw [hS]
    have hstep : py_replace pr.1 pr.2 ((pre ++ u) ++ quoteChar :: (v ++ post))
        = (pre ++ u) ++ quoteChar :: quoteChar :: (v ++ post) := by
      calc py_replace pr.1 pr.2 ((pre ++ u) ++ quoteChar :: (v ++ post))
          = py_replace pr.1 pr.2 (pre ++ pr.1 ++ post) := by rw [hshape]
        _ = pre ++ pr.2 ++ post := by
            rw [h1, h2]
            exact repl_hit u v pre post hu hqu hpre hpost
        _ = (pre ++ u) ++ quoteChar :: quoteChar :: (v ++ post) := hfinal.symm
    rw [hstep, foldl_keep_doubled l2 hl2 (pre ++ u) (v ++ post) hX hY, hfinal]
  · rw [hS]
    have hstep2 : py_replace pr.1 pr.2 ((pre ++ u) ++ quoteChar :: quoteChar :: (v ++ post))
        = (pre ++ u) ++ quoteChar :: quoteChar :: (v ++ post) := by
      rw [h1, h2]
      exact py_replace_id_of_not_contains _ _ _
        (no_entry_in_doubled u v (pre ++ u) (v ++ post) hu hv hqu hqv hX hY)
    rw [hstep2, foldl_keep_doubled l2 hl2 (pre ++ u) (v ++ post) hX hY, hfinal]

/-- Witness for C6: `don't` in quote-free context becomes `don''t`. -/
theorem C6_contraction_doubling_witness :
    fix_apostrophes ((("you ").data) ++ (("don't").data) ++ ((" say").data))
      = (("you ").data) ++ (("don''t").data) ++ ((" say").data) :=
  C6_contraction_doubling ((("don't").data), (("don''t").data)) (by decide)
    (("you ").data) ((" say").data) (by decide) (by decide)

set_option maxRecDepth 65536

/-- Claim C7 counterexample: the claim quantifies over every transformed
values block, but a block that itself contains the text
`INSERT INTO CombinedBio` makes the assembled script contain that text
twice, not exactly once. -/
theorem C7_counterexample_block_containing_insert :
    countOccur bioNeedle
      (sql_server_script (("CombinedBio").data)
        (column_list_for (("CombinedBio").data) [])
        (("(1, 'x'), INSERT INTO CombinedBio").data)) = 2 := by
  decide

/-- Claim C7 (amended): for the spec's scenario table `CombinedBio` (with
its default column list) and every values block whose content does not
put the text `INSERT INTO CombinedBio` in or around the block, the
assembled script contains exactly one occurrence of
`INSERT INTO CombinedBio`, with `SET IDENTITY_INSERT CombinedBio ON;`
before it, `SET IDENTITY_INSERT CombinedBio OFF;` after it, and the
trailing `SELECT TOP 5 * FROM CombinedBio ORDER BY internal_id DESC;`
line last. -/
theorem C7_script_structure (v : Text)
    (hw : containsSeq bioNeedle
      (bioPre.drop (bioPre.length - (bioNeedle.length - 1)) ++ rstripChar (',') v
        ++ bioPost.take (bioNeedle.length - 1)) = false) :
    countOccur bioNeedle
        (sql_server_script (("CombinedBio").data)
          (column_list_for (("CombinedBio").data) []) v) = 1 ∧
    ∃ A B C : Text,
      sql_server_script (("CombinedBio").data)
          (column_list_for (("CombinedBio").data) []) v
        = A ++ bioOn ++ B ++ bioNeedle ++ C ++ bioOff ++ bioD ++ bioTop5 := by
  rw [bio_script_decomp]
  constructor
  · rw [countOccur_mid bioNeedle bioPre (rstripChar (',') v) bioPost (by decide) hw]
    have h1 : countOccur bioNeedle bioPre = 1 := by decide
    have h2 : countOccur bioNeedle bioPost = 0 := by decide
    rw [h1, h2]
  · refine ⟨bioA, bioB, bioC1 ++ rstripChar (',') v ++ bioC2, ?_⟩
    simp only [bioPre, bioPost, List.append_assoc]

/-- Sample two-row `CombinedBio` values block used by the C7 witness. -/
def bioSampleValues : Text :=
  ("(1, '67c7c0d0', 'Cheque payment guidance text.', 'eand', '2025-03-05 03:11:12', 188, 'business', 'https://x.example/a.html'),\n(2, '67c7c0da', 'Company overview text.', 'eand', '2025-03-05 03:11:22', 188, 'business', 'https://x.example/b.html')").data

/-- Witness for C7: the scenario's two-row block satisfies the window
hypothesis and yields the claimed script shape. -/
theorem C7_script_structure_witness :
    (containsSeq bioNeedle
      (bioPre.drop (bioPre.length - (bioNeedle.length - 1))
        ++ rstripChar (',') bioSampleValues
        ++ bioPost.take (bioNeedle.length - 1)) = false) ∧
    (countOccur bioNeedle
        (sql_server_script (("CombinedBio").data)
          (column_list_for (("CombinedBio").data) []) bioSampleValues) = 1 ∧
    ∃ A B C : Text,
      sql_server_script (("CombinedBio").data)
          (column_list_for (("CombinedBio").data) []) bioSampleValues
        = A ++ bioOn ++ B ++ bioNeedle ++ C ++ bioOff ++ bioD ++ bioTop5) :=
  ⟨by decide, C7_script_structure bioSampleValues (by decide)⟩

/-- Claim C8: the top-level cleaning operation never lets an exception
propagate; a read failure (modelled as an `Except.error` result of the
read) and a write failure (the write raising, modelled as the writer
returning `Except.error` on the generated script) both make the
operation return `false` to its caller. -/
theorem C8_io_failures_return_false :
    (∀ (e : Text) (w : Text → Except Text Unit) (tn : Text),
      clean_sql_data (Except.error e) w tn = false)
    ∧ (∀ (content : Text) (w : Text → Except Text Unit) (tn e : Text),
      w (build_script content tn) = Except.error e →
      clean_sql_data (Except.ok content) w tn = false) := by
  constructor
  · intro e w tn
    rfl
  · intro content w tn e h
    simp only [clean_sql_data, h]

/-- Witness for C8: a failing read and a failing write both yield
`false`. -/
theorem C8_io_failures_return_false_witness :
    clean_sql_data (Except.error (("no such file").data))
        (fun _ => Except.ok ()) (("CombinedAddons").data) = false ∧
    clean_sql_data (Except.ok (("(1, 'x')").data))
        (fun _ => Except.error (("disk full").data)) (("CombinedAddons").data) = false :=
  ⟨C8_io_failures_return_false.1 (("no such file").data) _ _,
    C8_io_failures_return_false.2 (("(1, 'x')").data)
      (fun _ => Except.error (("disk full").data)) (("CombinedAddons").data)
      (("disk full").data) rfl⟩

/-- Claim C9: the lazy `VALUES` match stops at the first semicolon after
the keyword even when that semicolon sits inside a single-quoted
literal: the returned block is silently truncated right before the
semicolon, losing the rest of the literal. -/
theorem C9_semicolon_inside_literal_truncates (pre a b : Text)
    (hpre : ∀ c ∈ pre, c.toLower ≠ ('v'))
    (ha : ∀ c ∈ a, isSpaceP c = false ∧ c ≠ (';')) :
    extract_and_clean_values
        (pre ++ ("VALUES ").data ++ (('(') :: quoteChar :: a) ++ (';') :: b)
      = ('(') :: quoteChar :: a := by
  apply extract_shaped pre (('(') :: quoteChar :: a) b hpre
  intro c hc
  rcases List.mem_cons.1 hc with h1 | h2
  · rw [h1]
    constructor <;> decide
  · rcases List.mem_cons.1 h2 with h3 | h4
    · rw [h3]
      constructor <;> decide
    · exact ha c h4

/-- Witness for C9: the HTML-entity semicolon in `'a&amp;...'` cuts the
block in the middle of the literal. -/
theorem C9_semicolon_inside_literal_truncates_witness :
    extract_and_clean_values ((("x\n").data) ++ ("VALUES ").data
        ++ (('(') :: quoteChar :: (("a&amp").data)) ++ (';') :: ((" b');").data))
      = ('(') :: quoteChar :: (("a&amp").data) :=
  C9_semicolon_inside_literal_truncates (("x\n").data) (("a&amp").data)
    ((" b');").data) (by decide) (by decide)

/-- Claim C10 counterexample: the claim says every occurrence of a
contraction whose capitalisation differs from the listed form is left
unchanged, but `She'll` (a capitalisation variant of the entry `she'll`)
contains the lowercase entry `he'll` as an exact substring, so the fixer
rewrites it to `She''ll`. -/
theorem C10_counterexample_embedded_lowercase_entry :
    fix_apostrophes (("She'll").data) = ("She''ll").data ∧
      ("She''ll").data ≠ (("She'll").data : Text) := by
  decide

/-- Claim C10 (amended): the contraction mapping is case-sensitive
exact-substring replacement, so any text containing no table entry as an
exact substring — in particular a capitalisation variant such as `Don't`
that embeds no lowercase entry — is left completely unchanged. -/
theorem C10_case_sensitive_identity (t : Text)
    (h : ∀ pr ∈ apostrophe_fixes, containsSeq pr.1 t = false) :
    fix_apostrophes t = t :=
  foldl_id_of_no_entry apostrophe_fixes t h

/-- Witness for C10: `Don't` embeds no table entry and is unchanged. -/
theorem C10_case_sensitive_identity_witness :
    fix_apostrophes (("Don't").data) = ("Don't").data :=
  C10_case_sensitive_identity (("Don't").data) (by decide)
